import Mathlib

/-!
Verification of the tensor-representation-extraction engine of
`strawberryfields/utils.py` (vectorization codec, interleaved-identity
generator, circuit augmentor, operator-kind classifiers, unitary and
channel extractors).

Tensors with `k` axes of size `d` are embedded as functions
`(Fin k → Fin d) → α`; numpy reshape/transpose/einsum steps become
explicit index bookkeeping, with machine floats replaced by exact
arithmetic.
-/

/-- A dense tensor with `k` axes, each of dimension `d`, entries in `α`. -/
def Tensor (k d : Nat) (α : Type) : Type := (Fin k → Fin d) → α

/-- Row-major (numpy C-order) flattening of `N` axes of size `D` into one
axis of size `D ^ N`: the last axis varies fastest. -/
def enc {N D : Nat} (f : Fin N → Fin D) : Fin (D ^ N) :=
  finFunctionFinEquiv (fun i => f i.rev)

/-- Row-major splitting of one axis of size `D ^ N` into `N` axes of size
`D`; inverse of `enc`. -/
def dec {N D : Nat} (x : Fin (D ^ N)) (i : Fin N) : Fin D :=
  finFunctionFinEquiv.symm x i.rev

theorem dec_enc {N D : Nat} (f : Fin N → Fin D) : dec (enc f) = f := by
  funext i
  simp [dec, enc, Fin.rev_rev]

theorem enc_dec {N D : Nat} (x : Fin (D ^ N)) : enc (dec x) = x := by
  show finFunctionFinEquiv (fun i => finFunctionFinEquiv.symm x i.rev.rev) = x
  have h : (fun i : Fin N => finFunctionFinEquiv.symm x i.rev.rev)
      = finFunctionFinEquiv.symm x := by
    funext i
    rw [Fin.rev_rev]
  rw [h, Equiv.apply_symm_apply]

/-- The index permutation performed by the einsum on line 786 of
`utils.py` (`np.arange(dims).reshape((2, dims//2)).T.reshape([-1])` used
as einsum labels): output axis `j` of the transposed tensor is original
axis `2*j` for `j < 2*N` (even positions, order preserved) and original
axis `2*(j-2*N)+1` for `j ≥ 2*N` (odd positions).  `deinterleave4 a` is
the position that original axis `a` occupies in the transposed tensor. -/
def deinterleave4 (N : Nat) (a : Fin (4 * N)) : Fin (4 * N) :=
  if a.val % 2 = 0 then ⟨a.val / 2, by have := a.isLt; omega⟩
  else ⟨2 * N + a.val / 2, by have := a.isLt; omega⟩

/-- Inverse of `deinterleave4`: position `j` of the transposed tensor
holds original axis `interleave4 j`. -/
def interleave4 (N : Nat) (j : Fin (4 * N)) : Fin (4 * N) :=
  if h : j.val < 2 * N then ⟨2 * j.val, by omega⟩
  else ⟨2 * (j.val - 2 * N) + 1, by have := j.isLt; omega⟩

theorem deinterleave4_val {N : Nat} (a : Fin (4 * N)) :
    (deinterleave4 N a).val = if a.val % 2 = 0 then a.val / 2 else 2 * N + a.val / 2 := by
  unfold deinterleave4
  by_cases h : a.val % 2 = 0 <;> simp only [if_pos, if_neg, h, reduceIte]

theorem interleave4_val {N : Nat} (j : Fin (4 * N)) :
    (interleave4 N j).val = if j.val < 2 * N then 2 * j.val else 2 * (j.val - 2 * N) + 1 := by
  unfold interleave4
  by_cases h : j.val < 2 * N
  · rw [dif_pos h, if_pos h]
  · rw [dif_neg h, if_neg h]

theorem interleave4_deinterleave4 {N : Nat} (a : Fin (4 * N)) :
    interleave4 N (deinterleave4 N a) = a := by
  have hv := a.isLt
  apply Fin.ext
  rw [interleave4_val, deinterleave4_val]
  by_cases h : a.val % 2 = 0
  · simp only [if_pos h]
    split <;> omega
  · simp only [if_neg h]
    split <;> omega

theorem deinterleave4_interleave4 {N : Nat} (j : Fin (4 * N)) :
    deinterleave4 N (interleave4 N j) = j := by
  have hv := j.isLt
  apply Fin.ext
  rw [deinterleave4_val, interleave4_val]
  by_cases h : j.val < 2 * N
  · simp only [if_pos h]
    split <;> omega
  · simp only [if_neg h]
    split <;> omega

/-- Split a flat axis position `a < 4*N` into (group, position inside the
group) for four consecutive groups of `N` axes each. -/
def groupSplit {N : Nat} (a : Fin (4 * N)) : Fin 4 × Fin N :=
  (⟨a.val / N, by
      have ha := a.isLt
      have hN : 0 < N := by omega
      exact (Nat.div_lt_iff_lt_mul hN).mpr (by omega)⟩,
   ⟨a.val % N, Nat.mod_lt _ (by have := a.isLt; omega)⟩)

/-- Inverse of `groupSplit`. -/
def groupCombine {N : Nat} (g : Fin 4) (p : Fin N) : Fin (4 * N) :=
  ⟨g.val * N + p.val, by
    have hg := g.isLt
    have hp := p.isLt
    have h2 : (g.val + 1) * N ≤ 4 * N := Nat.mul_le_mul_right N (by omega)
    have h3 : (g.val + 1) * N = g.val * N + N := by ring
    omega⟩

theorem groupCombine_groupSplit {N : Nat} (a : Fin (4 * N)) :
    groupCombine (groupSplit a).1 (groupSplit a).2 = a := by
  apply Fin.ext
  simp only [groupCombine, groupSplit]
  rw [Nat.mul_comm]
  exact Nat.div_add_mod a.val N

theorem groupSplit_groupCombine {N : Nat} (g : Fin 4) (p : Fin N) :
    groupSplit (groupCombine g p) = (g, p) := by
  have hN : 0 < N := by have := p.isLt; omega
  have hdiv : (g.val * N + p.val) / N = g.val := by
    rw [Nat.add_comm, Nat.add_mul_div_right _ _ hN, Nat.div_eq_of_lt p.isLt]
    omega
  have hmod : (g.val * N + p.val) % N = p.val := by
    rw [Nat.add_comm, Nat.add_mul_mod_self_right, Nat.mod_eq_of_lt p.isLt]
  simp only [groupSplit, groupCombine, Prod.mk.injEq]
  exact ⟨Fin.ext hdiv, Fin.ext hmod⟩

/-- Line 786 of `utils.py`: `np.einsum(tensor, arange(dims).reshape((2,
dims//2)).T.reshape([-1]))` — reorder the `4*N` axes so that the axes at
even original positions come first (order preserved), then the axes at
odd original positions. -/
def vecTranspose {N D : Nat} {α : Type} (t : Tensor (4 * N) D α) : Tensor (4 * N) D α :=
  fun f => t (fun a => f (deinterleave4 N a))

/-- Line 787 of `utils.py`: `np.reshape(transposed, [D ** N] * 4)` —
row-major merge of each consecutive block of `N` axes into one axis of
size `D ^ N`. -/
def vecReshape {N D : Nat} {α : Type} (t : Tensor (4 * N) D α) : Tensor 4 (D ^ N) α :=
  fun x => t (fun a => dec (x (groupSplit a).1) (groupSplit a).2)

/-- The `Fin 4` permutation of `np.einsum('abcd -> acbd', ...)`
(lines 788 and 819 of `utils.py`): swap the middle two axes. -/
def swapAxes (j : Fin 4) : Fin 4 :=
  if j.val = 1 then ⟨2, by omega⟩ else if j.val = 2 then ⟨1, by omega⟩ else j

/-- Semantics of `np.einsum('abcd -> acbd', v)`: axis 1 of the result is axis 2 of the
input and vice versa. -/
def swap12 {M : Nat} {α : Type} (v : Tensor 4 M α) : Tensor 4 M α :=
  fun x => v (fun j => x (swapAxes j))

theorem swapAxes_swapAxes (j : Fin 4) : swapAxes (swapAxes j) = j := by
  fin_cases j <;> rfl

theorem swap12_swap12 {M : Nat} {α : Type} (v : Tensor 4 M α) :
    swap12 (swap12 v) = v := by
  funext x
  show v (fun j => x (swapAxes (swapAxes j))) = v x
  congr 1
  funext j
  rw [swapAxes_swapAxes]

/-- Embedding of `_vectorize_dm` (lines 748–790 of `utils.py`) on a well-shaped input:
transpose even axes before odd axes, reshape into 4 axes of size `D ^ N`,
then swap the middle two axes. -/
def _vectorize_dm {N D : Nat} {α : Type} (t : Tensor (4 * N) D α) : Tensor 4 (D ^ N) α :=
  swap12 (vecReshape (vecTranspose t))

/-- Line 819 of `utils.py`: the same middle-axis swap, applied first by
`_unvectorize_dm`. -/
def unvecSwap {M : Nat} {α : Type} (v : Tensor 4 M α) : Tensor 4 M α :=
  swap12 v

/-- Line 820 of `utils.py`: `np.reshape(transposed, [D] * (4*N))` —
row-major split of each of the 4 axes of size `D ^ N` into `N` axes of
size `D`. -/
def unvecReshape {N D : Nat} {α : Type} (v : Tensor 4 (D ^ N) α) : Tensor (4 * N) D α :=
  fun f => v (fun g => enc (fun p => f (groupCombine g p)))

/-- Line 821 of `utils.py`: `np.einsum(unvectorized, arange(4*N).reshape(
(2*N, 2)).T.reshape([-1]))` — interleave the two halves back, so that
axis `2*m` of the result is axis `m` of the input and axis `2*m+1` is
axis `2*N+m`. -/
def unvecTranspose {N D : Nat} {α : Type} (t : Tensor (4 * N) D α) : Tensor (4 * N) D α :=
  fun f => t (fun i => f (interleave4 N i))

/-- Embedding of `_unvectorize_dm` (lines 793–823 of `utils.py`) on a well-shaped
rank-4 input, with the cutoff `D` recovered exactly (the shape/size
checks and the root inference are modelled by `unvectorize_check`). -/
def _unvectorize_dm {N D : Nat} {α : Type} (v : Tensor 4 (D ^ N) α) : Tensor (4 * N) D α :=
  unvecTranspose (unvecReshape (unvecSwap v))

theorem unvecReshape_vecReshape {N D : Nat} {α : Type} (t : Tensor (4 * N) D α) :
    unvecReshape (vecReshape t) = t := by
  funext f
  show t (fun a => dec (enc fun p => f (groupCombine (groupSplit a).1 p)) (groupSplit a).2) = t f
  congr 1
  funext a
  rw [dec_enc]
  rw [groupCombine_groupSplit]

theorem vecReshape_unvecReshape {N D : Nat} {α : Type} (v : Tensor 4 (D ^ N) α) :
    vecReshape (unvecReshape v) = v := by
  funext x
  show v (fun g => enc fun p => dec (x (groupSplit (groupCombine g p)).1) (groupSplit (groupCombine g p)).2) = v x
  congr 1
  funext g
  have h : (fun p => dec (x (groupSplit (groupCombine g p)).1) (groupSplit (groupCombine g p)).2)
      = dec (x g) := by
    funext p
    rw [groupSplit_groupCombine]
  rw [h, enc_dec]

theorem unvecTranspose_vecTranspose {N D : Nat} {α : Type} (t : Tensor (4 * N) D α) :
    unvecTranspose (vecTranspose t) = t := by
  funext f
  show t (fun a => f (interleave4 N (deinterleave4 N a))) = t f
  congr 1
  funext a
  rw [interleave4_deinterleave4]

theorem vecTranspose_unvecTranspose {N D : Nat} {α : Type} (t : Tensor (4 * N) D α) :
    vecTranspose (unvecTranspose t) = t := by
  funext f
  show t (fun i => f (deinterleave4 N (interleave4 N i))) = t f
  congr 1
  funext i
  rw [deinterleave4_interleave4]

/-- C1: for every N and D and every tensor `t` with `4*N` axes of size
`D`, `_unvectorize_dm (_vectorize_dm t) = t` element-wise: the index
bookkeeping of the vectorization codec is an exact round trip (in the
exact-arithmetic embedding, where the collapsed axis size `D ^ N` is
recovered exactly). -/
theorem vectorize_unvectorize_round_trip :
    ∀ (N D : Nat) (α : Type) (t : Tensor (4 * N) D α),
      _unvectorize_dm (_vectorize_dm t) = t := by
  intro N D α t
  show unvecTranspose (unvecReshape (swap12 (swap12 (vecReshape (vecTranspose t))))) = t
  rw [swap12_swap12, unvecReshape_vecReshape, unvecTranspose_vecTranspose]

theorem unvectorize_vectorize_round_trip {N D : Nat} {α : Type} (v : Tensor 4 (D ^ N) α) :
    _vectorize_dm (_unvectorize_dm v) = v := by
  show swap12 (vecReshape (vecTranspose (unvecTranspose (unvecReshape (swap12 v))))) = v
  rw [vecTranspose_unvecTranspose, vecReshape_unvecReshape, swap12_swap12]

/-!
## The spec-side description of `_vectorize_dm` (for claim C2)

`specIndex` renders the spec's algorithm word for word at the index
level: group A = axes at even original positions (internal order kept),
group B = axes at odd positions; each group split into consecutive halves
A1 A2 / B1 B2 of `N` axes; each half flattened row-major into one axis of
size `D ^ N`; final axis order (A1, B1, A2, B2).  Hence the original axis
`a = 2*m` (even, group A) reads digit `m` of final axis 0 when `m < N`
(half A1) and digit `m - N` of final axis 2 when `m ≥ N` (half A2);
the original axis `a = 2*m + 1` reads half B1 (final axis 1) or half B2
(final axis 3) likewise.
-/

def specIndex {N D : Nat} (x : Fin 4 → Fin (D ^ N)) (a : Fin (4 * N)) : Fin D :=
  if h0 : a.val % 2 = 0 then
    if h : a.val / 2 < N then dec (x 0) ⟨a.val / 2, h⟩
    else dec (x 2) ⟨a.val / 2 - N, by have := a.isLt; omega⟩
  else
    if h : a.val / 2 < N then dec (x 1) ⟨a.val / 2, h⟩
    else dec (x 3) ⟨a.val / 2 - N, by have := a.isLt; omega⟩

/-- The spec's description of vectorization, assembled from `specIndex`. -/
def vectorizeSpec {N D : Nat} {α : Type} (t : Tensor (4 * N) D α) : Tensor 4 (D ^ N) α :=
  fun x => t (fun a => specIndex x a)

/-- Check `len(set(shape)) == 1` of lines 783 and 816 of `utils.py`: all axis
sizes equal (and the shape nonempty). -/
def allAxesEqual (shape : List Nat) : Bool := shape.dedup.length = 1

/-- The guard of `_vectorize_dm` (lines 776–784 of `utils.py`): reject a
shape whose length is not a multiple of 4 (line 778) or whose axis sizes
are not all equal (line 783); otherwise report `(N, D)` with
`N = dims / 4` and `D` the common axis size. -/
def vectorize_shape_check (shape : List Nat) : Option (Nat × Nat) :=
  if shape.length % 4 ≠ 0 then none
  else if ¬ allAxesEqual shape then none
  else
    match shape with
    | d :: _ => some (shape.length / 4, d)
    | [] => none

theorem allAxesEqual_iff (shape : List Nat) :
    allAxesEqual shape = true ↔ ∃ d, shape ≠ [] ∧ ∀ y ∈ shape, y = d := by
  constructor
  · intro h
    simp only [allAxesEqual, decide_eq_true_eq] at h
    obtain ⟨d, hd⟩ := List.length_eq_one.mp h
    refine ⟨d, ?_, ?_⟩
    · intro hnil
      rw [hnil] at hd
      simp [List.dedup_nil] at hd
    · intro y hy
      have : y ∈ shape.dedup := (List.mem_dedup).mpr hy
      rw [hd] at this
      simpa using this
  · rintro ⟨d, hne, hall⟩
    simp only [allAxesEqual, decide_eq_true_eq]
    rcases hd : shape.dedup with _ | ⟨x, xs⟩
    · exact absurd ((List.dedup_eq_nil shape).mp hd) hne
    · rcases xs with _ | ⟨y, ys⟩
      · rfl
      · exfalso
        have hnodup := shape.nodup_dedup
        rw [hd] at hnodup
        have hx : x = d := hall x (List.mem_dedup.mp (by rw [hd]; exact List.mem_cons_self x _))
        have hy : y = d := hall y (List.mem_dedup.mp (by rw [hd]; simp))
        rw [hx, hy] at hnodup
        simp at hnodup


theorem swapAxes_val (j : Fin 4) :
    (swapAxes j).val = if j.val = 1 then 2 else if j.val = 2 then 1 else j.val := by
  unfold swapAxes
  by_cases h1 : j.val = 1
  · simp [h1]
  · by_cases h2 : j.val = 2 <;> simp [h1, h2]

theorem div_mod_of_between {N v k : Nat} (h1 : k * N ≤ v) (h2 : v < (k + 1) * N) :
    v / N = k ∧ v % N = v - k * N := by
  have hN : 0 < N := by
    rcases Nat.eq_zero_or_pos N with h | h
    · subst h
      omega
    · exact h
  have hdiv : v / N = k := Nat.div_eq_of_lt_le h1 h2
  refine ⟨hdiv, ?_⟩
  have hm := Nat.mod_add_div v N
  rw [hdiv] at hm
  have hc : N * k = k * N := Nat.mul_comm N k
  omega

theorem groupSplit_fst_val {N : Nat} (a : Fin (4 * N)) :
    ((groupSplit a).1).val = a.val / N := rfl

theorem groupSplit_snd_val {N : Nat} (a : Fin (4 * N)) :
    ((groupSplit a).2).val = a.val % N := rfl

/-- The composite index map of `_vectorize_dm` agrees with the spec's
description `specIndex` at every original axis `a`. -/
theorem vec_index_eq {N D : Nat} (x : Fin 4 → Fin (D ^ N)) (a : Fin (4 * N)) :
    dec (x (swapAxes (groupSplit (deinterleave4 N a)).1)) ((groupSplit (deinterleave4 N a)).2)
      = specIndex x a := by
  have ha := a.isLt
  have hdv : (deinterleave4 N a).val
      = if a.val % 2 = 0 then a.val / 2 else 2 * N + a.val / 2 := deinterleave4_val a
  by_cases h0 : a.val % 2 = 0
  · rw [if_pos h0] at hdv
    by_cases h1 : a.val / 2 < N
    · have hg : swapAxes (groupSplit (deinterleave4 N a)).1 = (0 : Fin 4) := by
        apply Fin.ext
        rw [swapAxes_val, groupSplit_fst_val, hdv, Nat.div_eq_of_lt h1]
        decide
      have hp : (groupSplit (deinterleave4 N a)).2 = ⟨a.val / 2, h1⟩ := by
        apply Fin.ext
        show (deinterleave4 N a).val % N = a.val / 2
        rw [hdv]
        exact Nat.mod_eq_of_lt h1
      rw [hg, hp]
      simp only [specIndex, dif_pos h0, dif_pos h1]
    · have hdm := div_mod_of_between (N := N) (v := a.val / 2) (k := 1) (by omega) (by omega)
      have hg : swapAxes (groupSplit (deinterleave4 N a)).1 = (2 : Fin 4) := by
        apply Fin.ext
        rw [swapAxes_val, groupSplit_fst_val, hdv, hdm.1]
        decide
      have hp : (groupSplit (deinterleave4 N a)).2 = ⟨a.val / 2 - N, by omega⟩ := by
        apply Fin.ext
        show (deinterleave4 N a).val % N = a.val / 2 - N
        rw [hdv, hdm.2]
        omega
      rw [hg, hp]
      simp only [specIndex, dif_pos h0, dif_neg h1]
  · rw [if_neg h0] at hdv
    by_cases h1 : a.val / 2 < N
    · have hdm := div_mod_of_between (N := N) (v := 2 * N + a.val / 2) (k := 2) (by omega) (by omega)
      have hg : swapAxes (groupSplit (deinterleave4 N a)).1 = (1 : Fin 4) := by
        apply Fin.ext
        rw [swapAxes_val, groupSplit_fst_val, hdv, hdm.1]
        decide
      have hp : (groupSplit (deinterleave4 N a)).2 = ⟨a.val / 2, h1⟩ := by
        apply Fin.ext
        show (deinterleave4 N a).val % N = a.val / 2
        rw [hdv, hdm.2]
        omega
      rw [hg, hp]
      simp only [specIndex, dif_neg h0, dif_pos h1]
    · have hdm := div_mod_of_between (N := N) (v := 2 * N + a.val / 2) (k := 3) (by omega) (by omega)
      have hg : swapAxes (groupSplit (deinterleave4 N a)).1 = (3 : Fin 4) := by
        apply Fin.ext
        rw [swapAxes_val, groupSplit_fst_val, hdv, hdm.1]
        decide
      have hp : (groupSplit (deinterleave4 N a)).2 = ⟨a.val / 2 - N, by omega⟩ := by
        apply Fin.ext
        show (deinterleave4 N a).val % N = a.val / 2 - N
        rw [hdv, hdm.2]
        omega
      rw [hg, hp]
      simp only [specIndex, dif_neg h0, dif_neg h1]

theorem vectorize_shape_check_none_iff (shape : List Nat) :
    vectorize_shape_check shape = none
      ↔ (shape.length % 4 ≠ 0 ∨ allAxesEqual shape = false) := by
  unfold vectorize_shape_check
  by_cases h1 : shape.length % 4 ≠ 0
  · simp [h1]
  · rw [if_neg h1]
    by_cases h2 : allAxesEqual shape
    · rw [if_neg (not_not_intro h2)]
      rcases shape with _ | ⟨d, rest⟩
      · simp [allAxesEqual] at h2
      · simp only []
        constructor
        · intro h
          exact Option.noConfusion h
        · rintro (hc | hc)
          · exact absurd hc h1
          · rw [h2] at hc
            cases hc
    · rw [if_pos h2]
      constructor
      · intro _
        exact Or.inr (Bool.eq_false_iff.mpr h2)
      · intro _
        rfl

/-- C2: `_vectorize_dm` realizes exactly the algorithm stated by the
spec — axes regrouped even-positions-first (A then B), each group split
into consecutive halves A1 A2 / B1 B2 of `N` axes, each half flattened
row-major into one axis of size `D ^ N`, final axis order (A1, B1, A2,
B2) — and its guard rejects precisely the shapes whose axis count is not
a multiple of 4 or whose axis sizes are not all equal. -/
theorem vectorize_matches_spec_and_guard :
    (∀ (N D : Nat) (α : Type) (t : Tensor (4 * N) D α), _vectorize_dm t = vectorizeSpec t)
    ∧ (∀ shape : List Nat,
        vectorize_shape_check shape = none
          ↔ (shape.length % 4 ≠ 0 ∨ ¬ ∃ d, shape ≠ [] ∧ ∀ y ∈ shape, y = d)) := by
  constructor
  · intro N D α t
    funext x
    show t (fun a => dec (x (swapAxes (groupSplit (deinterleave4 N a)).1))
        ((groupSplit (deinterleave4 N a)).2)) = t (fun a => specIndex x a)
    congr 1
    funext a
    exact vec_index_eq x a
  · intro shape
    rw [vectorize_shape_check_none_iff]
    constructor
    · rintro (h | h)
      · exact Or.inl h
      · right
        intro hex
        rw [(allAxesEqual_iff shape).mpr hex] at h
        cases h
    · rintro (h | h)
      · exact Or.inl h
      · right
        rcases hb : allAxesEqual shape with _ | _
        · rfl
        · exact absurd ((allAxesEqual_iff shape).mp hb) h

/-- Exact-arithmetic model of `int(shape[0] ** (1 / num_subsystems))` on
line 820 of `utils.py`: truncation of the exact real `N`-th root of `S`,
i.e. the largest `d` with `d ^ N ≤ S`.  (The IEEE rounding of the float
power itself is not modelled; see the round-trip discussion.) -/
def natRootFloor (S n : Nat) : Nat := Nat.findGreatest (fun d => d ^ n ≤ S) S

theorem natRootFloor_pow (D N : Nat) (hN : 1 ≤ N) : natRootFloor (D ^ N) N = D := by
  unfold natRootFloor
  refine Nat.findGreatest_eq_iff.mpr ⟨?_, ?_, ?_⟩
  · exact Nat.le_self_pow (by omega) D
  · intro _
    exact le_refl _
  · intro k hk _ hle
    have : D ^ N < k ^ N := Nat.pow_lt_pow_left hk (by omega)
    omega

/-- The guard and inference of `_unvectorize_dm` (lines 809–821 of
`utils.py`): reject a shape that is not rank 4 (line 811) or whose axis
sizes are unequal (line 816); infer `D` as the truncated `N`-th root of
the common axis size `s` (line 820), and fail — through `np.reshape`,
which raises when element counts disagree — unless `D ^ (4*N)` equals the
total input size `s ^ 4`.  Returns the inferred `D` on success. -/
def unvectorize_check (shape : List Nat) (N : Nat) : Option Nat :=
  if shape.length ≠ 4 then none
  else if ¬ allAxesEqual shape then none
  else
    match shape with
    | s :: _ =>
      if (natRootFloor s N) ^ (4 * N) = s ^ 4 then some (natRootFloor s N) else none
    | [] => none

theorem unvectorize_check_replicate (N D : Nat) (hN : 1 ≤ N) :
    unvectorize_check (List.replicate 4 (D ^ N)) N = some D := by
  have hEq : allAxesEqual (List.replicate 4 (D ^ N)) = true := by
    refine (allAxesEqual_iff _).mpr ⟨D ^ N, by simp, ?_⟩
    intro y hy
    exact (List.eq_of_mem_replicate hy)
  unfold unvectorize_check
  rw [if_neg (by simp), if_neg (not_not_intro hEq)]
  show (if (natRootFloor (D ^ N) N) ^ (4 * N) = (D ^ N) ^ 4 then some (natRootFloor (D ^ N) N) else none) = some D
  rw [natRootFloor_pow D N hN, if_pos (by rw [← pow_mul, Nat.mul_comm])]

theorem unvectorize_check_isSome_iff (shape : List Nat) (N : Nat) (hN : 1 ≤ N) :
    (unvectorize_check shape N).isSome = true ↔ ∃ D, shape = List.replicate 4 (D ^ N) := by
  constructor
  · intro hsome
    unfold unvectorize_check at hsome
    by_cases h1 : shape.length ≠ 4
    · rw [if_pos h1] at hsome
      simp at hsome
    · rw [if_neg h1] at hsome
      by_cases h2 : allAxesEqual shape
      · rw [if_neg (not_not_intro h2)] at hsome
        rcases shape with _ | ⟨s, rest⟩
        · simp at hsome
        · simp only [] at hsome
          by_cases h3 : (natRootFloor s N) ^ (4 * N) = s ^ 4
          · refine ⟨natRootFloor s N, ?_⟩
            have hs : natRootFloor s N ^ N = s := by
              rw [Nat.mul_comm, pow_mul] at h3
              exact Nat.pow_left_injective (by omega) h3
            obtain ⟨d, _, hall⟩ := (allAxesEqual_iff _).mp h2
            have hsd : s = d := hall s (by simp)
            have hrep := List.eq_replicate_length.mpr hall
            have hlen : (s :: rest).length = 4 := not_ne_iff.mp h1
            rw [hlen, ← hsd] at hrep
            rw [hs]
            exact hrep
          · rw [if_neg h3] at hsome
            simp at hsome
      · rw [if_pos h2] at hsome
        simp at hsome
  · rintro ⟨D, rfl⟩
    rw [unvectorize_check_replicate N D hN]
    rfl

/-- C5: the `_unvectorize_dm` contract.  (1) The guard accepts exactly
the rank-4 all-equal shapes whose axis size is a perfect `N`-th power
(otherwise it fails: not rank 4, unequal axes, or the reshape to `4*N`
axes of the inferred size is impossible); (2) on axes of size `D ^ N` the
inferred cutoff is exactly `D`; (3) on every valid rank-4 input the
returned `4*N`-axis tensor is the one whose vectorization is the input.
In the exact-arithmetic embedding the truncated root of line 820 agrees
with the rounded root; see the IEEE caveat on `natRootFloor`. -/
theorem unvectorize_contract :
    (∀ (shape : List Nat) (N : Nat), 1 ≤ N →
        ((unvectorize_check shape N).isSome = true ↔ ∃ D, shape = List.replicate 4 (D ^ N)))
    ∧ (∀ (N D : Nat), 1 ≤ N → unvectorize_check (List.replicate 4 (D ^ N)) N = some D)
    ∧ (∀ (N D : Nat) (α : Type) (v : Tensor 4 (D ^ N) α), _vectorize_dm (_unvectorize_dm v) = v) :=
  ⟨fun shape N hN => unvectorize_check_isSome_iff shape N hN,
   fun N D hN => unvectorize_check_replicate N D hN,
   fun _ _ _ v => unvectorize_vectorize_round_trip v⟩

theorem unvectorize_contract_witness :
    (1 : Nat) ≤ 2 ∧ unvectorize_check (List.replicate 4 (3 ^ 2)) 2 = some 3 :=
  ⟨by decide, unvectorize_contract.2.1 2 3 (by decide)⟩

/-!
## Interleaved identities (claim C4)
-/

/-- Entry of the `D × D` identity matrix (`np.identity(cutoff_dim)`). -/
def kron_delta {D : Nat} (i j : Fin D) : ℤ := if i = j then 1 else 0

/-- Lines 840–842 of `utils.py`: the loop
`I = np.identity(D); for _ in range(1, N): I = np.tensordot(I, np.identity(D), axes=0)`.
`np.tensordot(A, B, axes=0)` is the outer product with `A`'s axes first,
so the result has its `2*N` axes in the order
(row₀, col₀, row₁, col₁, …): axis `2*k` is the row and axis `2*k+1` the
column of the `k`-th identity copy. -/
def outerIdentities (N D : Nat) : Tensor (2 * N) D ℤ :=
  fun f => ∏ k : Fin N,
    kron_delta (f ⟨2 * k.val, by have := k.isLt; omega⟩)
      (f ⟨2 * k.val + 1, by have := k.isLt; omega⟩)

/-- The einsum label list of line 849 of `utils.py`
(`np.arange(2*N).reshape((2, N)).T.reshape([-1])`, e.g. `[0, 3, 1, 4, 2, 5]`
for `N = 3`): input axis `i` of the outer product receives label
`deinterleave2 i`, so output axis `j` (sorted by label) is input axis
`interleave2 j`. -/
def deinterleave2 (N : Nat) (i : Fin (2 * N)) : Fin (2 * N) :=
  if i.val % 2 = 0 then ⟨i.val / 2, by have := i.isLt; omega⟩
  else ⟨N + i.val / 2, by have := i.isLt; omega⟩

theorem deinterleave2_val {N : Nat} (i : Fin (2 * N)) :
    (deinterleave2 N i).val = if i.val % 2 = 0 then i.val / 2 else N + i.val / 2 := by
  unfold deinterleave2
  by_cases h : i.val % 2 = 0 <;> simp only [if_pos, if_neg, h, reduceIte]

/-- Embedding of `_interleaved_identities` (lines 826–849 of `utils.py`): the outer
product of `N` identities followed by the einsum of line 849; entry at
multi-index `f` reads the outer product at `f ∘ deinterleave2`. -/
def _interleaved_identities (N D : Nat) : Tensor (2 * N) D ℤ :=
  fun f => outerIdentities N D (fun i => f (deinterleave2 N i))

/-- The tensor asserted by claim C4: the `N`-fold product of identities
with output axis pair `(2*k, 2*k+1)` being the (row, column) pair of the
`k`-th copy — i.e. the mode-interleaved axis order. -/
def interleavedIdentitySpec (N D : Nat) : Tensor (2 * N) D ℤ :=
  fun f => ∏ k : Fin N,
    kron_delta (f ⟨2 * k.val, by have := k.isLt; omega⟩)
      (f ⟨2 * k.val + 1, by have := k.isLt; omega⟩)

/-- The block-order identity tensor: output axis `k` is the row and
output axis `N + k` the column of the `k`-th identity copy (so modes `k`
and `N + k` are perfectly correlated). -/
def blockIdentitySpec (N D : Nat) : Tensor (2 * N) D ℤ :=
  fun f => ∏ k : Fin N,
    kron_delta (f ⟨k.val, by have := k.isLt; omega⟩)
      (f ⟨N + k.val, by have := k.isLt; omega⟩)

/-- C4 counterexample: at `N = 2`, `D = 2` and the concrete multi-index
`(0, 0, 1, 1)`, the code's tensor differs from the mode-interleaved
tensor asserted by the claim (the code yields block order, axis `k`
correlated with axis `N + k`, not axis `2*k` with `2*k+1`). -/
theorem interleaved_identities_claim_cex :
    _interleaved_identities 2 2 (fun a => if a.val ≤ 1 then (0 : Fin 2) else 1)
      ≠ interleavedIdentitySpec 2 2 (fun a => if a.val ≤ 1 then (0 : Fin 2) else 1) := by
  decide

/-- C4 (amended): `_interleaved_identities N D` equals the `N`-fold
tensor product of the `D × D` identity with its `2*N` axes permuted into
block order: output axis `k` is the row of copy `k` and output axis
`N + k` its column, for every `k < N`. -/
theorem interleaved_identities_block_order :
    ∀ (N D : Nat), _interleaved_identities N D = blockIdentitySpec N D := by
  intro N D
  funext f
  show (∏ k : Fin N,
      kron_delta (f (deinterleave2 N ⟨2 * k.val, by have := k.isLt; omega⟩))
        (f (deinterleave2 N ⟨2 * k.val + 1, by have := k.isLt; omega⟩)))
    = ∏ k : Fin N,
      kron_delta (f ⟨k.val, by have := k.isLt; omega⟩) (f ⟨N + k.val, by have := k.isLt; omega⟩)
  apply Finset.prod_congr rfl
  intro k _
  congr 1
  · congr 1
    apply Fin.ext
    rw [deinterleave2_val]
    show (if 2 * k.val % 2 = 0 then 2 * k.val / 2 else N + 2 * k.val / 2) = k.val
    rw [if_pos (by omega)]
    omega
  · congr 1
    apply Fin.ext
    rw [deinterleave2_val]
    show (if (2 * k.val + 1) % 2 = 0 then (2 * k.val + 1) / 2 else N + (2 * k.val + 1) / 2)
      = N + k.val
    rw [if_neg (by omega)]
    omega

/-!
## Engine model (claims C6–C10)

The `Engine` class, `copy.deepcopy` and `Engine._add_subsystems` are not
part of `utils.py`.  Modelled from the spec: the circuit queue/register
collaborator is "a sequence of operation records, each naming an operator
and the ordered list of mode indices it acts on, plus a mode-count and a
mode-addition operation"; operators are polymorphic over the capability
set (unitary gate, channel, state-preparation).  Python object aliasing
is modelled by a heap (`Store`): engines live at indices, `deepcopy`
appends a copy at a fresh index, and in-place mutation is `List.set`.
The backend is an opaque oracle; a run only counts its invocations. -/

inductive OpKind
  | gate
  | channel
  | preparation
  | measurement
deriving DecidableEq

/-- An operation record: operator kind and target mode indices. -/
structure Command where
  op : OpKind
  modes : List Nat
deriving DecidableEq

/-- Modelled from the spec: the engine state read and written by
`utils.py` — command queue, initial and current mode counts, register. -/
structure Engine where
  cmd_queue : List Command
  init_num_subsystems : Nat
  num_subsystems : Nat
  reg_refs : List Nat
deriving DecidableEq

instance : Inhabited Engine := ⟨⟨[], 0, 0, []⟩⟩

def OpKind.isGate : OpKind → Bool
  | OpKind.gate => true
  | _ => false

def OpKind.isGateOrChannel : OpKind → Bool
  | OpKind.gate => true
  | OpKind.channel => true
  | _ => false

/-- Embedding of `is_unitary` (lines 723–732 of `utils.py`): every queued command's
operator is a `Gate`. -/
def is_unitary (e : Engine) : Bool := e.cmd_queue.all (fun c => c.op.isGate)

/-- Embedding of `is_channel` (lines 735–745 of `utils.py`): every queued command's
operator is a `Gate` or a `Channel`. -/
def is_channel (e : Engine) : Bool := e.cmd_queue.all (fun c => c.op.isGateOrChannel)

/-- Modelled from the spec: `Engine._add_subsystems(n)`: "append N new
mode indices to the register" and extend the mode count. -/
def _add_subsystems (e : Engine) (n : Nat) : Engine :=
  { e with
    num_subsystems := e.num_subsystems + n,
    reg_refs := e.reg_refs ++ (List.range n).map (fun i => e.num_subsystems + i) }

/-- Embedding of `_engine_with_CJ_cmd_queue` (lines 852–871 of `utils.py`): double the
register (`_add_subsystems(N)` with `N = init_num_subsystems`) and
prepend a `Ket` state-preparation command acting on all register modes.
The tensor payload (`_interleaved_identities`) is treated separately. -/
def _engine_with_CJ_cmd_queue (e : Engine) (_cutoff_dim : Nat) : Engine :=
  { _add_subsystems e e.init_num_subsystems with
    cmd_queue :=
      { op := OpKind.preparation, modes := (_add_subsystems e e.init_num_subsystems).reg_refs }
        :: e.cmd_queue }

/-- The heap of engine objects: Python references are list indices. -/
abbrev Store := List Engine

inductive ExtractErr
  | typeError
  | valueError
  | resourceError
deriving DecidableEq

inductive RepChoice
  | choi
  | liouville
  | kraus
deriving DecidableEq

/-- Observable outcome of one extraction call: final heap, number of
backend simulation invocations, and the result or the raised error. -/
structure ExtractTrace (α : Type) where
  store : Store
  backendCalls : Nat
  result : Except ExtractErr α

/-- Exact-ASCII model of Python's `str.lower()` used by
`representation.lower()` on lines 1095–1105 of `utils.py`. -/
def lowerStr (s : String) : List Char := s.data.map Char.toLower

/-- Control flow of `extract_unitary` (lines 874–943 of `utils.py`):
reject a non-unitary queue (line 913, before anything else); reject an
unsupported backend name (line 916); otherwise deepcopy the engine
(line 925), augment the copy in place with the CJ queue, and run one
backend simulation (lines 927–929). -/
def extract_unitary_run (s : Store) (r : Nat) (cutoff_dim : Nat) (backend : String) :
    ExtractTrace Unit :=
  if ¬ is_unitary (s.getD r default) then ⟨s, 0, Except.error ExtractErr.typeError⟩
  else if ¬ (backend = "fock" ∨ backend = "tf") then ⟨s, 0, Except.error ExtractErr.valueError⟩
  else
    ⟨(s ++ [s.getD r default]).set s.length
        (_engine_with_CJ_cmd_queue (s.getD r default) cutoff_dim),
      1, Except.ok ()⟩

/-- Control flow of `extract_channel` (lines 946–1127 of `utils.py`):
reject a non-channel queue (line 1082); otherwise deepcopy and augment
(line 1087), run ONE backend simulation (lines 1090–1092), and only then
dispatch on `representation.lower()` (lines 1095–1125); an unsupported
representation raises `ValueError` in the final `else` (line 1125),
after the simulation. -/
def extract_channel_run (s : Store) (r : Nat) (cutoff_dim : Nat) (representation : String) :
    ExtractTrace RepChoice :=
  if ¬ is_channel (s.getD r default) then ⟨s, 0, Except.error ExtractErr.typeError⟩
  else
    if lowerStr representation = "choi".data then
      ⟨(s ++ [s.getD r default]).set s.length
          (_engine_with_CJ_cmd_queue (s.getD r default) cutoff_dim), 1, Except.ok RepChoice.choi⟩
    else if lowerStr representation = "liouville".data then
      ⟨(s ++ [s.getD r default]).set s.length
          (_engine_with_CJ_cmd_queue (s.getD r default) cutoff_dim), 1,
        Except.ok RepChoice.liouville⟩
    else if lowerStr representation = "kraus".data then
      ⟨(s ++ [s.getD r default]).set s.length
          (_engine_with_CJ_cmd_queue (s.getD r default) cutoff_dim), 1, Except.ok RepChoice.kraus⟩
    else
      ⟨(s ++ [s.getD r default]).set s.length
          (_engine_with_CJ_cmd_queue (s.getD r default) cutoff_dim), 1,
        Except.error ExtractErr.valueError⟩

theorem set_append_singleton {α : Type} (s : List α) (e x : α) :
    (s ++ [e]).set s.length x = s ++ [x] := by
  induction s with
  | nil => rfl
  | cons a as ih =>
    show a :: ((as ++ [e]).set as.length x) = a :: (as ++ [x])
    rw [ih]

theorem set_preserves_get (s : Store) (e x : Engine) (r : Nat) (h : r < s.length) :
    ((s ++ [e]).set s.length x)[r]? = s[r]? := by
  rw [set_append_singleton]
  exact List.getElem?_append_left h

/-- C6: side-effect isolation.  Both extractors work on an independent
deep copy: for every heap, after `extract_unitary_run` or
`extract_channel_run` (successful or failing) the caller's engine at its
original heap index — queue, register and mode counts — is unchanged,
even though the copy at the fresh index is augmented in place. -/
theorem extraction_preserves_original_engine :
    ∀ (s : Store) (r cutoff : Nat) (backend representation : String),
      r < s.length →
        (extract_unitary_run s r cutoff backend).store[r]? = s[r]?
        ∧ (extract_channel_run s r cutoff representation).store[r]? = s[r]? := by
  intro s r cutoff backend representation h
  constructor
  · unfold extract_unitary_run
    split
    · rfl
    · split
      · rfl
      · exact set_preserves_get s _ _ r h
  · unfold extract_channel_run
    split
    · rfl
    · split
      · exact set_preserves_get s _ _ r h
      · split
        · exact set_preserves_get s _ _ r h
        · split
          · exact set_preserves_get s _ _ r h
          · exact set_preserves_get s _ _ r h

theorem extraction_preserves_original_engine_witness :
    (0 : Nat) < ([⟨[⟨OpKind.gate, [0]⟩], 1, 1, [0]⟩] : Store).length
    ∧ ((extract_unitary_run [⟨[⟨OpKind.gate, [0]⟩], 1, 1, [0]⟩] 0 2 "fock").store[0]?
        = ([⟨[⟨OpKind.gate, [0]⟩], 1, 1, [0]⟩] : Store)[0]?
      ∧ (extract_channel_run [⟨[⟨OpKind.gate, [0]⟩], 1, 1, [0]⟩] 0 2 "choi").store[0]?
        = ([⟨[⟨OpKind.gate, [0]⟩], 1, 1, [0]⟩] : Store)[0]?) :=
  ⟨by decide,
   extraction_preserves_original_engine [⟨[⟨OpKind.gate, [0]⟩], 1, 1, [0]⟩] 0 2 "fock" "choi"
     (by decide)⟩

/-- C7: `extract_unitary` on a circuit whose queue contains a command
whose operator is not gate-typed raises the `TypeError`-class error
first thing and performs no backend simulation call (and leaves the heap
untouched). -/
theorem extract_unitary_rejects_non_gate :
    ∀ (s : Store) (r cutoff : Nat) (backend : String) (c : Command),
      c ∈ (s.getD r default).cmd_queue → c.op ≠ OpKind.gate →
        extract_unitary_run s r cutoff backend
          = ⟨s, 0, Except.error ExtractErr.typeError⟩ := by
  intro s r cutoff backend c hc hop
  have hu : is_unitary (s.getD r default) = false := by
    unfold is_unitary
    refine List.all_eq_false.mpr ⟨c, hc, ?_⟩
    cases hcop : c.op <;> simp_all [OpKind.isGate]
  unfold extract_unitary_run
  rw [if_pos (by rw [hu]; decide)]

theorem extract_unitary_rejects_non_gate_witness :
    (⟨OpKind.channel, [0]⟩ : Command)
        ∈ (([⟨[⟨OpKind.channel, [0]⟩], 1, 1, [0]⟩] : Store).getD 0 default).cmd_queue
    ∧ (⟨OpKind.channel, [0]⟩ : Command).op ≠ OpKind.gate
    ∧ extract_unitary_run [⟨[⟨OpKind.channel, [0]⟩], 1, 1, [0]⟩] 0 2 "fock"
        = ⟨[⟨[⟨OpKind.channel, [0]⟩], 1, 1, [0]⟩], 0, Except.error ExtractErr.typeError⟩ :=
  ⟨by decide, by decide,
   extract_unitary_rejects_non_gate [⟨[⟨OpKind.channel, [0]⟩], 1, 1, [0]⟩] 0 2 "fock"
     ⟨OpKind.channel, [0]⟩ (by decide) (by decide)⟩

/-- C8 counterexample: for a channel-valid circuit and the unsupported
representation string "bogus", `extract_channel` does raise the
`ValueError`-class error, but only AFTER one backend simulation call —
not before, as the claim asserts. -/
theorem extract_channel_bad_representation_cex :
    (extract_channel_run [⟨[], 1, 1, [0]⟩] 0 2 "bogus").result
        = Except.error ExtractErr.valueError
      ∧ (extract_channel_run [⟨[], 1, 1, [0]⟩] 0 2 "bogus").backendCalls ≠ 0 := by
  exact ⟨rfl, by decide⟩

/-- C8 (amended): an unsupported representation string makes
`extract_channel` fail with the `ValueError`-class error, but the error
surfaces only after the backend simulation has been invoked (exactly one
simulation call happens first). -/
theorem extract_channel_bad_representation_after_sim :
    ∀ (s : Store) (r cutoff : Nat) (representation : String),
      is_channel (s.getD r default) = true →
      lowerStr representation ≠ "choi".data →
      lowerStr representation ≠ "liouville".data →
      lowerStr representation ≠ "kraus".data →
        (extract_channel_run s r cutoff representation).result
            = Except.error ExtractErr.valueError
          ∧ (extract_channel_run s r cutoff representation).backendCalls = 1 := by
  intro s r cutoff rep hch h1 h2 h3
  unfold extract_channel_run
  rw [if_neg (not_not_intro hch), if_neg h1, if_neg h2, if_neg h3]
  exact ⟨rfl, rfl⟩

theorem extract_channel_bad_representation_after_sim_witness :
    is_channel (([⟨[], 1, 1, [0]⟩] : Store).getD 0 default) = true
    ∧ (lowerStr "bogus" ≠ "choi".data ∧ lowerStr "bogus" ≠ "liouville".data
        ∧ lowerStr "bogus" ≠ "kraus".data)
    ∧ ((extract_channel_run [⟨[], 1, 1, [0]⟩] 0 2 "bogus").result
          = Except.error ExtractErr.valueError
      ∧ (extract_channel_run [⟨[], 1, 1, [0]⟩] 0 2 "bogus").backendCalls = 1) :=
  ⟨by decide, ⟨by decide, by decide, by decide⟩,
   extract_channel_bad_representation_after_sim [⟨[], 1, 1, [0]⟩] 0 2 "bogus" (by decide)
     (by decide) (by decide) (by decide)⟩

/-- C9 counterexample: at an explicit 10-mode engine with cutoff 100
(requested density tensor of `100^40` elements), both extractors proceed
straight to the backend simulation: no ceiling is consulted and no
`ResourceError`-class error is raised. -/
theorem no_resource_guard_cex :
    (extract_channel_run [⟨[], 10, 10, List.range 10⟩] 0 100 "choi").result
        = Except.ok RepChoice.choi
      ∧ (extract_unitary_run [⟨[], 10, 10, List.range 10⟩] 0 100 "fock").result
        = Except.ok ()
      ∧ (extract_channel_run [⟨[], 10, 10, List.range 10⟩] 0 100 "choi").result
        ≠ Except.error ExtractErr.resourceError :=
  ⟨rfl, rfl, fun h => Except.noConfusion h⟩

/-- C9 (amended): no extraction call checks the requested tensor element
count against any ceiling: neither `extract_unitary` nor
`extract_channel` can ever produce a `ResourceError`-class error, for any
engine, cutoff, backend or representation. -/
theorem extraction_never_resource_error :
    ∀ (s : Store) (r cutoff : Nat) (backend representation : String),
      (extract_unitary_run s r cutoff backend).result
          ≠ Except.error ExtractErr.resourceError
      ∧ (extract_channel_run s r cutoff representation).result
          ≠ Except.error ExtractErr.resourceError := by
  intro s r cutoff backend representation
  constructor
  · unfold extract_unitary_run
    split
    · simp
    · split
      · simp
      · simp
  · unfold extract_channel_run
    split
    · simp
    · split
      · simp
      · split
        · simp
        · split
          · simp
          · simp

/-- C10: the representation dispatch of `extract_channel` compares
`representation.lower()` against the lowercase tags, so any letter-casing
of "choi", "liouville" or "kraus" selects the corresponding
representation on a channel-valid circuit and never reaches the
unsupported-representation `ValueError`. -/
theorem extract_channel_case_insensitive :
    ∀ (s : Store) (r cutoff : Nat) (representation : String),
      is_channel (s.getD r default) = true →
        (lowerStr representation = "choi".data →
          (extract_channel_run s r cutoff representation).result = Except.ok RepChoice.choi)
        ∧ (lowerStr representation = "liouville".data →
          (extract_channel_run s r cutoff representation).result = Except.ok RepChoice.liouville)
        ∧ (lowerStr representation = "kraus".data →
          (extract_channel_run s r cutoff representation).result = Except.ok RepChoice.kraus) := by
  intro s r cutoff rep hch
  refine ⟨?_, ?_, ?_⟩
  · intro h
    unfold extract_channel_run
    rw [if_neg (by rw [hch]; decide), if_pos h]
  · intro h
    unfold extract_channel_run
    rw [if_neg (by rw [hch]; decide), if_neg (by rw [h]; decide), if_pos h]
  · intro h
    unfold extract_channel_run
    rw [if_neg (by rw [hch]; decide), if_neg (by rw [h]; decide), if_neg (by rw [h]; decide),
      if_pos h]

theorem extract_channel_case_insensitive_witness :
    is_channel (([⟨[⟨OpKind.channel, [0]⟩], 1, 1, [0]⟩] : Store).getD 0 default) = true
    ∧ lowerStr "CHOI" = "choi".data
    ∧ (extract_channel_run [⟨[⟨OpKind.channel, [0]⟩], 1, 1, [0]⟩] 0 2 "CHOI").result
        = Except.ok RepChoice.choi
    ∧ lowerStr "Kraus" = "kraus".data
    ∧ (extract_channel_run [⟨[⟨OpKind.channel, [0]⟩], 1, 1, [0]⟩] 0 2 "Kraus").result
        = Except.ok RepChoice.kraus :=
  ⟨by decide, by decide,
   (extract_channel_case_insensitive [⟨[⟨OpKind.channel, [0]⟩], 1, 1, [0]⟩] 0 2 "CHOI"
       (by decide)).1 (by decide),
   by decide,
   (extract_channel_case_insensitive [⟨[⟨OpKind.channel, [0]⟩], 1, 1, [0]⟩] 0 2 "Kraus"
       (by decide)).2.2 (by decide)⟩

/-!
## Kraus extraction pipeline (claim C3)

The steps of the `representation == 'kraus'` branch (lines 1105–1120 of
`utils.py`) after `np.linalg.eig`.  Complex machine floats are embedded
as pairs of exact rationals (every float is a rational); the complex
square root, which is not rational-valued, is a parameter `sqrtc`
standing for `np.sqrt`; the eigendecomposition itself is the oracle
input (`eigvals`, and `eigvecs` as the list of matrix columns —
`eigvecs[:, j]` is the `j`-th eigenvector).
-/

/-- A complex scalar with exact rational real and imaginary parts. -/
abbrev QC : Type := ℚ × ℚ

def cMul (x y : QC) : QC := (x.1 * y.1 - x.2 * y.2, x.1 * y.2 + x.2 * y.1)

def normSq (z : QC) : ℚ := z.1 ^ 2 + z.2 ^ 2

/-- Test `np.isclose(abs(eigvals), 0)` with the default absolute tolerance
`atol = 1e-8` (the relative-tolerance term vanishes against 0):
`|z| ≤ 1e-8`, squared to stay rational. -/
def iscloseZero (z : QC) : Bool := decide (normSq z ≤ ((1 : ℚ) / 10 ^ 8) ^ 2)

/-- The keep mask `~np.isclose(abs(eigvals), 0)` of lines 1112–1113. -/
def survives (z : QC) : Bool := ! iscloseZero z

/-- Boolean-mask indexing `xs[mask]` / `xs[:, mask]`: keep the entries at
positions where the mask is `True`. -/
def applyMask {α : Type} : List Bool → List α → List α
  | b :: bs, x :: xs => if b then x :: applyMask bs xs else applyMask bs xs
  | _, _ => []

/-- Lines 1109–1120 of `utils.py` after `np.linalg.eig`: drop the
eigenvector columns at near-zero eigenvalues (`eigvecs[:, mask]`,
line 1112), drop the same eigenvalues (line 1113), rescale each kept
column by the square root of its (positionally matched) eigenvalue
(`np.einsum('b,ab->ab', np.sqrt(eigvals), eigvecs)`, line 1116), and
reshape each column row-major into an `M × M` operator indexed along a
new leading axis (`reshape([M, M, -1])` + `'abc->cab'`, line 1120). -/
def krausStack (M : Nat) (sqrtc : QC → QC) (eigvals : List QC) (eigvecs : List (List QC)) :
    List (Fin M → Fin M → QC) :=
  (List.zipWith (fun l v => v.map (fun x => cMul (sqrtc l) x))
      (applyMask (eigvals.map survives) eigvals)
      (applyMask (eigvals.map survives) eigvecs)).map
    (fun v => fun a b => v.getD (a.val * M + b.val) (0, 0))

/-- The claim's per-eigenpair description: keep exactly the eigenpairs
whose eigenvalue survives the near-zero test, rescale each surviving
eigenvector by the square root of ITS eigenvalue, and stack one `M × M`
operator per surviving pair. -/
def krausStackSpec (M : Nat) (sqrtc : QC → QC) (pairs : List (QC × List QC)) :
    List (Fin M → Fin M → QC) :=
  (pairs.filter (fun p => survives p.1)).map
    (fun p => fun a b => ((p.2).map (fun x => cMul (sqrtc p.1) x)).getD (a.val * M + b.val) (0, 0))

theorem zip_mask_filter {α β γ : Type} (f : α → Bool) (h : α → β → γ) :
    ∀ (ls : List α) (vs : List β), ls.length = vs.length →
      List.zipWith h (applyMask (ls.map f) ls) (applyMask (ls.map f) vs)
        = ((ls.zip vs).filter (fun p => f p.1)).map (fun p => h p.1 p.2) := by
  intro ls
  induction ls with
  | nil =>
    intro vs _
    rfl
  | cons l ls ih =>
    intro vs hlen
    rcases vs with _ | ⟨v, vs⟩
    · exact absurd hlen (by simp)
    · have hlen' : ls.length = vs.length := by simpa using hlen
      rcases hf : f l with _ | _
      · show List.zipWith h (if f l then l :: applyMask (ls.map f) ls else applyMask (ls.map f) ls)
            (if f l then v :: applyMask (ls.map f) vs else applyMask (ls.map f) vs) = _
        rw [hf]
        simp only [if_neg Bool.false_ne_true]
        rw [ih vs hlen']
        show _ = List.map _ (List.filter _ ((l, v) :: ls.zip vs))
        rw [List.filter_cons_of_neg (by simpa using hf)]
      · show List.zipWith h (if f l then l :: applyMask (ls.map f) ls else applyMask (ls.map f) ls)
            (if f l then v :: applyMask (ls.map f) vs else applyMask (ls.map f) vs) = _
        rw [hf]
        simp only [if_pos]
        show h l v :: List.zipWith h (applyMask (ls.map f) ls) (applyMask (ls.map f) vs) = _
        rw [ih vs hlen']
        show _ = List.map _ (List.filter _ ((l, v) :: ls.zip vs))
        rw [List.filter_cons_of_pos (by simpa using hf)]
        rfl

theorem zip_filter_fst_length {α β : Type} (f : α → Bool) :
    ∀ (ls : List α) (vs : List β), ls.length = vs.length →
      ((ls.zip vs).filter (fun p => f p.1)).length = (ls.filter f).length := by
  intro ls
  induction ls with
  | nil =>
    intro vs _
    rfl
  | cons l ls ih =>
    intro vs hlen
    rcases vs with _ | ⟨v, vs⟩
    · exact absurd hlen (by simp)
    · have hlen' : ls.length = vs.length := by simpa using hlen
      show (List.filter _ ((l, v) :: ls.zip vs)).length = (List.filter f (l :: ls)).length
      rcases hf : f l with _ | _
      · rw [List.filter_cons_of_neg (by simpa using hf),
          List.filter_cons_of_neg (by simpa using hf)]
        exact ih vs hlen'
      · rw [List.filter_cons_of_pos (by simpa using hf),
          List.filter_cons_of_pos (by simpa using hf)]
        simpa using ih vs hlen'

/-- C3: given any eigendecomposition output, the Kraus branch keeps
exactly the eigenpairs whose eigenvalue magnitude fails the
`np.isclose(|λ|, 0)` test (absolute tolerance `1e-8`); the positional
double-masking of lines 1112–1113 pairs every surviving eigenvector with
its own eigenvalue, so each kept column is rescaled by the square root of
its eigenvalue; and the stack holds exactly one `M × M` operator per
surviving eigenpair. -/
theorem kraus_filter_rescale_stack :
    ∀ (M : Nat) (sqrtc : QC → QC) (eigvals : List QC) (eigvecs : List (List QC)),
      eigvals.length = eigvecs.length →
        krausStack M sqrtc eigvals eigvecs = krausStackSpec M sqrtc (eigvals.zip eigvecs)
          ∧ (krausStack M sqrtc eigvals eigvecs).length = (eigvals.filter survives).length := by
  intro M sqrtc ls vs hlen
  have hz := zip_mask_filter survives (fun l v => v.map (fun x => cMul (sqrtc l) x)) ls vs hlen
  constructor
  · unfold krausStack krausStackSpec
    rw [hz, List.map_map]
    rfl
  · unfold krausStack
    rw [hz, List.length_map, List.length_map]
    exact zip_filter_fst_length survives ls vs hlen

theorem kraus_filter_rescale_stack_witness :
    ([((0 : ℚ), (0 : ℚ)), ((1 : ℚ), (0 : ℚ))] : List QC).length
        = ([[((1 : ℚ), (0 : ℚ))], [((2 : ℚ), (0 : ℚ))]] : List (List QC)).length
    ∧ (krausStack 1 id [((0 : ℚ), (0 : ℚ)), ((1 : ℚ), (0 : ℚ))]
          [[((1 : ℚ), (0 : ℚ))], [((2 : ℚ), (0 : ℚ))]]).length
      = (([((0 : ℚ), (0 : ℚ)), ((1 : ℚ), (0 : ℚ))] : List QC).filter survives).length :=
  ⟨by decide,
   (kraus_filter_rescale_stack 1 id [((0 : ℚ), (0 : ℚ)), ((1 : ℚ), (0 : ℚ))]
       [[((1 : ℚ), (0 : ℚ))], [((2 : ℚ), (0 : ℚ))]] (by decide)).2⟩
